import Mathlib

/-!
Shallow embedding of the `sjis2utf8` conversion tool
(`src/sjis2utf8/{detector,converter,backup,scanner,models,cli}.py`).

Bytes are modelled as `List Nat` (each element a byte value), decoded text as
`List Nat` of Unicode code points, and filesystem paths as `List String` of
path components (`PathC`).  Filesystem effects are made explicit by threading
a finite-map state (`FS`).  The strict UTF-8 codec of the Python standard
library is implemented directly (its behaviour is exactly specified); the
CP932 codec is an external standard-library collaborator and is modelled
abstractly as a structure bundling a strict decoder together with its
contract that decoding produces Unicode scalar values.
-/

namespace SjisTool

/-- A filesystem path, as its list of components from the root. -/
abbrev PathC := List String

/-- Split a path string on `/` into components, dropping empty components
(models `pathlib.Path(s).parts` without the anchor). -/
def splitSlash (s : String) : PathC :=
  go s.data []
where
  /-- Accumulates the current component (reversed) while scanning. -/
  go : List Char → List Char → List String
    | [], acc => if acc.isEmpty then [] else [String.mk acc.reverse]
    | c :: cs, acc =>
      if c = '/' then
        (if acc.isEmpty then [] else [String.mk acc.reverse]) ++ go cs []
      else
        go cs (c :: acc)

/-- Join path components with `/` (models `str(path)` with forward slashes). -/
def joinPath (p : PathC) : String :=
  String.intercalate "/" p

/-- Lexical resolution of `.` and `..` components (models `Path.resolve()`
on a symlink-free filesystem; `..` at the root stays at the root). -/
def resolvePath (p : PathC) : PathC :=
  p.foldl (fun acc s =>
    if s = "." then acc
    else if s = ".." then acc.dropLast
    else acc ++ [s]) []

/-- Model of `p.relative_to(root)`: strip `root` as a component prefix, or fail
(models the `ValueError` raised by `pathlib`). -/
def relative_to (p root : PathC) : Option PathC :=
  if root.isPrefixOf p then some (p.drop root.length) else none

namespace Utf8

/-- Is `b` a UTF-8 continuation byte (`0x80`–`0xBF`)? -/
def isCont (b : Nat) : Bool :=
  0x80 ≤ b && b ≤ 0xBF

/-- A Unicode scalar value: in range and not a surrogate.  Python's strict
UTF-8 codec encodes exactly these. -/
def ScalarValue (c : Nat) : Prop :=
  c < 0x110000 ∧ (c < 0xD800 ∨ 0xDFFF < c)

instance (c : Nat) : Decidable (ScalarValue c) := by
  unfold ScalarValue; infer_instance

/-- UTF-8 encoding of a single code point (models `str.encode("utf-8")`
character by character). -/
def encodeChar (c : Nat) : List Nat :=
  if c < 0x80 then [c]
  else if c < 0x800 then [0xC0 + c / 0x40, 0x80 + c % 0x40]
  else if c < 0x10000 then
    [0xE0 + c / 0x1000, 0x80 + c / 0x40 % 0x40, 0x80 + c % 0x40]
  else
    [0xF0 + c / 0x40000, 0x80 + c / 0x1000 % 0x40,
     0x80 + c / 0x40 % 0x40, 0x80 + c % 0x40]

/-- UTF-8 encoding of a code-point string. -/
def encode : List Nat → List Nat
  | [] => []
  | c :: cs => encodeChar c ++ encode cs

/-- One step of strict UTF-8 decoding (models one character of
`bytes.decode("utf-8", errors="strict")`): returns the code point and the
remaining bytes, rejecting truncated sequences, stray continuation bytes,
overlong forms, surrogates and code points above `0x10FFFF`. -/
def decodeOne : List Nat → Option (Nat × List Nat)
  | [] => none
  | b :: rest =>
    if b < 0x80 then some (b, rest)
    else if b < 0xC2 then none
    else if b < 0xE0 then
      match rest with
      | b1 :: rest1 =>
        if isCont b1 then some ((b - 0xC0) * 0x40 + (b1 - 0x80), rest1) else none
      | [] => none
    else if b < 0xF0 then
      match rest with
      | b1 :: b2 :: rest2 =>
        if isCont b1 && isCont b2 then
          let c := (b - 0xE0) * 0x1000 + (b1 - 0x80) * 0x40 + (b2 - 0x80)
          if 0x800 ≤ c ∧ (c < 0xD800 ∨ 0xDFFF < c) then some (c, rest2) else none
        else none
      | _ => none
    else if b < 0xF5 then
      match rest with
      | b1 :: b2 :: b3 :: rest3 =>
        if isCont b1 && isCont b2 && isCont b3 then
          let c := (b - 0xF0) * 0x40000 + (b1 - 0x80) * 0x1000 +
                   (b2 - 0x80) * 0x40 + (b3 - 0x80)
          if 0x10000 ≤ c ∧ c < 0x110000 then some (c, rest3) else none
        else none
      | _ => none
    else none

set_option maxRecDepth 4096 in
/-- A successful decoding step consumes at least one byte. -/
theorem decodeOne_shrink :
    ∀ l c rest, decodeOne l = some (c, rest) → rest.length < l.length := by
  intro l c rest h
  rcases l with _ | ⟨b, tl⟩
  · simp [decodeOne] at h
  · rw [decodeOne.eq_def] at h
    dsimp only at h
    split_ifs at h with h1 h2 h3 h4 h5
    · cases h; simp
    · rcases tl with _ | ⟨b1, rest1⟩
      · exact Option.noConfusion h
      · dsimp only at h
        split_ifs at h
        cases h
        simp only [List.length_cons]
        omega
    · rcases tl with _ | ⟨b1, _ | ⟨b2, rest2⟩⟩
      · exact Option.noConfusion h
      · exact Option.noConfusion h
      · dsimp only at h
        split_ifs at h
        cases h
        simp only [List.length_cons]
        omega
    · rcases tl with _ | ⟨b1, _ | ⟨b2, _ | ⟨b3, rest3⟩⟩⟩
      · exact Option.noConfusion h
      · exact Option.noConfusion h
      · exact Option.noConfusion h
      · dsimp only at h
        split_ifs at h
        cases h
        simp only [List.length_cons]
        omega

/-- Strict UTF-8 decoding with a step budget; each successful step consumes
at least one byte, so a budget of the byte length always suffices. -/
def decodeFuel : Nat → List Nat → Option (List Nat)
  | _, [] => some []
  | 0, _ :: _ => none
  | fuel + 1, b :: rest =>
    match decodeOne (b :: rest) with
    | none => none
    | some (c, rest1) => (decodeFuel fuel rest1).map (c :: ·)

/-- Strict UTF-8 decoding of a whole byte string (models
`bytes.decode("utf-8", errors="strict")`). -/
def decode (l : List Nat) : Option (List Nat) :=
  decodeFuel l.length l

/-- Any sufficient budget decodes alike. -/
theorem decodeFuel_congr :
    ∀ f1 f2 l, l.length ≤ f1 → l.length ≤ f2 → decodeFuel f1 l = decodeFuel f2 l := by
  intro f1
  induction f1 with
  | zero =>
    intro f2 l h1 _
    rcases l with _ | ⟨b, tl⟩
    · cases f2 <;> rfl
    · simp at h1
  | succ f1 ih =>
    intro f2 l h1 h2
    rcases l with _ | ⟨b, tl⟩
    · cases f2 <;> rfl
    · rcases f2 with _ | f2
      · simp at h2
      · rw [decodeFuel, decodeFuel]
        cases hone : decodeOne (b :: tl) with
        | none => rfl
        | some p =>
          rcases p with ⟨c, rest1⟩
          have hlt := decodeOne_shrink _ _ _ hone
          simp only [List.length_cons] at h1 h2 hlt
          dsimp only
          rw [ih f2 rest1 (by omega) (by omega)]

/-- Stepping the budgeted decoder once through a successful `decodeOne`. -/
theorem decodeFuel_step (fuel : Nat) (l : List Nat) (c : Nat)
    (rest1 : List Nat) (h : decodeOne l = some (c, rest1)) :
    decodeFuel (fuel + 1) l = (decodeFuel fuel rest1).map (c :: ·) := by
  rcases l with _ | ⟨b, tl⟩
  · simp [decodeOne] at h
  · rw [decodeFuel, h]

/-- The encoding of one character is never empty. -/
theorem encodeChar_length_pos (c : Nat) : 1 ≤ (encodeChar c).length := by
  unfold encodeChar
  split_ifs <;> simp

/-- The continuation-byte test holds for any `0x80 + small` byte. -/
theorem isCont_of_lt (n : Nat) (h : n < 0x40) : isCont (0x80 + n) = true := by
  unfold isCont
  simp only [Bool.and_eq_true, decide_eq_true_eq]
  omega

set_option maxHeartbeats 1000000 in
/-- One decoding step after encoding one scalar value recovers exactly that
character. -/
theorem decodeOne_encodeChar (c : Nat) (h : ScalarValue c) (rest : List Nat) :
    decodeOne (encodeChar c ++ rest) = some (c, rest) := by
  obtain ⟨hlt, hsur⟩ := h
  unfold encodeChar
  by_cases h1 : c < 0x80
  · rw [if_pos h1]
    simp only [List.cons_append, List.nil_append]
    rw [decodeOne.eq_def]
    dsimp only
    rw [if_pos h1]
  · by_cases h2 : c < 0x800
    · rw [if_neg h1, if_pos h2]
      simp only [List.cons_append, List.nil_append]
      rw [decodeOne.eq_def]
      dsimp only
      rw [if_neg (by omega), if_neg (by omega), if_pos (by omega),
        if_pos (isCont_of_lt _ (Nat.mod_lt _ (by omega)))]
      have hc : (0xC0 + c / 0x40 - 0xC0) * 0x40 + (0x80 + c % 0x40 - 0x80) = c := by
        omega
      rw [hc]
    · by_cases h3 : c < 0x10000
      · rw [if_neg h1, if_neg h2, if_pos h3]
        simp only [List.cons_append, List.nil_append]
        rw [decodeOne.eq_def]
        dsimp only
        have hc1 : isCont (0x80 + c / 0x40 % 0x40) = true :=
          isCont_of_lt _ (Nat.mod_lt _ (by omega))
        have hc2 : isCont (0x80 + c % 0x40) = true :=
          isCont_of_lt _ (Nat.mod_lt _ (by omega))
        rw [if_neg (by omega), if_neg (by omega), if_neg (by omega),
          if_pos (by omega), if_pos (by rw [hc1, hc2]; rfl)]
        have hc : (0xE0 + c / 0x1000 - 0xE0) * 0x1000 +
            (0x80 + c / 0x40 % 0x40 - 0x80) * 0x40 + (0x80 + c % 0x40 - 0x80)
            = c := by omega
        rw [hc]
        rw [if_pos (by omega)]
      · rw [if_neg h1, if_neg h2, if_neg h3]
        simp only [List.cons_append, List.nil_append]
        rw [decodeOne.eq_def]
        dsimp only
        have hc1 : isCont (0x80 + c / 0x1000 % 0x40) = true :=
          isCont_of_lt _ (Nat.mod_lt _ (by omega))
        have hc2 : isCont (0x80 + c / 0x40 % 0x40) = true :=
          isCont_of_lt _ (Nat.mod_lt _ (by omega))
        have hc3 : isCont (0x80 + c % 0x40) = true :=
          isCont_of_lt _ (Nat.mod_lt _ (by omega))
        rw [if_neg (by omega), if_neg (by omega), if_neg (by omega),
          if_neg (by omega), if_pos (by omega),
          if_pos (by rw [hc1, hc2, hc3]; rfl)]
        have hc : (0xF0 + c / 0x40000 - 0xF0) * 0x40000 +
            (0x80 + c / 0x1000 % 0x40 - 0x80) * 0x1000 +
            (0x80 + c / 0x40 % 0x40 - 0x80) * 0x40 + (0x80 + c % 0x40 - 0x80)
            = c := by omega
        rw [hc]
        rw [if_pos (by omega)]

/-- Decoding after encoding one scalar value steps over exactly the bytes of
that character. -/
theorem decode_encodeChar (c : Nat) (h : ScalarValue c) (rest : List Nat) :
    decode (encodeChar c ++ rest) = (decode rest).map (c :: ·) := by
  have hone := decodeOne_encodeChar c h rest
  have hk := encodeChar_length_pos c
  unfold decode
  have hm : (encodeChar c ++ rest).length =
      ((encodeChar c).length - 1 + rest.length) + 1 := by
    simp only [List.length_append]
    omega
  rw [hm, decodeFuel_step _ _ _ _ hone,
    decodeFuel_congr ((encodeChar c).length - 1 + rest.length) rest.length rest
      (by omega) (le_refl _)]

/-- Strict UTF-8 decoding is a left inverse of encoding on strings of
Unicode scalar values. -/
theorem decode_encode (s : List Nat) (h : ∀ c ∈ s, ScalarValue c) :
    decode (encode s) = some s := by
  induction s with
  | nil => rw [decode.eq_def]; rfl
  | cons c cs ih =>
    rw [encode, decode_encodeChar c (h c (List.mem_cons_self c cs)),
      ih (fun x hx => h x (List.mem_cons_of_mem c hx))]
    rfl

end Utf8

/-- The CP932 (Shift-JIS) codec is an external Python standard-library
collaborator.  It is modelled abstractly: a strict decoder from bytes to
code points together with its contract that decoded text consists of
Unicode scalar values. -/
structure Cp932 where
  decode : List Nat → Option (List Nat)
  decode_scalar : ∀ data text, decode data = some text →
    ∀ c ∈ text, Utf8.ScalarValue c

/-- A concrete codec instance for the ASCII fragment of CP932 (on which
CP932 agrees with the identity on byte values). -/
def asciiCp932 : Cp932 where
  decode data := if data.all (· < 0x80) then some data else none
  decode_scalar data text h c hc := by
    by_cases hall : data.all (· < 0x80)
    · simp only [hall, if_pos] at h
      cases h
      have := List.all_eq_true.mp hall c hc
      unfold Utf8.ScalarValue
      simp only [decide_eq_true_eq] at this
      omega
    · simp [hall] at h

/-- Model of `models.Encoding`: the closed enumeration of detected encodings. -/
inductive Encoding where
  | UTF8_BOM
  | UTF8_NO_BOM
  | CP932
  | UTF16_LE
  | UTF16_BE
  | BINARY
  | UNKNOWN
deriving DecidableEq, Repr

/-- Model of `Encoding.value`: the string tag of each encoding. -/
def encodingValue : Encoding → String
  | .UTF8_BOM => "utf-8-bom"
  | .UTF8_NO_BOM => "utf-8"
  | .CP932 => "cp932"
  | .UTF16_LE => "utf-16-le"
  | .UTF16_BE => "utf-16-be"
  | .BINARY => "binary"
  | .UNKNOWN => "unknown"

/-- Model of `models.FileStatus`. -/
inductive FileStatus where
  | CONVERTED
  | SKIPPED
  | ERROR
  | WARNING
deriving DecidableEq, Repr

/-- Model of `models.FileResult`: the outcome of processing one file. -/
structure FileResult where
  path : PathC
  status : FileStatus
  source_encoding : Option Encoding := none
  message : Option String := none
deriving DecidableEq, Repr

/-- Model of `models.ConversionConfig`: the immutable per-run configuration. -/
structure ConversionConfig where
  target_path : PathC
  extensions : List String := [".cs"]
  exclude_patterns : List String := []
  include_utf8_no_bom : Bool := false
  assume_cp932 : Bool := false
  strict : Bool := false
  execute : Bool := false
  backup_dir : PathC := ["backup"]
  log_file : Option PathC := none
  log_format : String := "text"
  quiet : Bool := false
  verbose : Bool := false

/-- Model of `models.DEFAULT_EXCLUDE_PATTERNS`. -/
def DEFAULT_EXCLUDE_PATTERNS : List String :=
  ["Library/", "Temp/", "obj/", "bin/", ".git/", ".vs/"]

/-- Model of `models.ConvertedFileInfo`: one manifest entry. -/
structure ConvertedFileInfo where
  relative_path : String
  source_encoding : String
  backup_path : String
deriving DecidableEq, Repr

/-- A JSON-like value, modelling the Python dictionaries handed to
`json.dump`/`json.load`. -/
inductive Json where
  | null
  | bool (b : Bool)
  | str (s : String)
  | arr (elems : List Json)
  | obj (fields : List (String × Json))

/-- Model of `models.RunManifest`. -/
structure RunManifest where
  run_id : String
  timestamp : String
  target_path : String
  converted_files : List ConvertedFileInfo
  config : Json

/-- Model of `models.ConversionSummary`: the per-run counters. -/
structure ConversionSummary where
  total_files : Nat := 0
  converted : Nat := 0
  skipped : Nat := 0
  warnings : Nat := 0
  errors : Nat := 0
  cp932_count : Nat := 0
  utf8_bom_count : Nat := 0
  utf8_no_bom_count : Nat := 0
  utf16_count : Nat := 0
  binary_count : Nat := 0
  unknown_count : Nat := 0
deriving DecidableEq, Repr

/-- Model of `detector.UTF8_BOM`. -/
def UTF8_BOM : List Nat := [0xEF, 0xBB, 0xBF]

/-- Model of `detector.UTF16_LE_BOM`. -/
def UTF16_LE_BOM : List Nat := [0xFF, 0xFE]

/-- Model of `detector.UTF16_BE_BOM`. -/
def UTF16_BE_BOM : List Nat := [0xFE, 0xFF]

/-- Model of `detector.detect_encoding_from_bytes`: the fixed ordered detection rules.
The CP932 codec is supplied as the external collaborator `cp`. -/
def detect_encoding_from_bytes (cp : Cp932) (data : List Nat) : Encoding :=
  if UTF8_BOM.isPrefixOf data then .UTF8_BOM
  else if UTF16_LE_BOM.isPrefixOf data then .UTF16_LE
  else if UTF16_BE_BOM.isPrefixOf data then .UTF16_BE
  else if data.length = 0 then .UTF8_NO_BOM
  else if data.contains 0 then .BINARY
  else if (Utf8.decode data).isSome then .UTF8_NO_BOM
  else if (cp.decode data).isSome then .CP932
  else .UNKNOWN

/-- Model of `detector.should_convert`. -/
def should_convert (encoding : Encoding) (include_utf8_no_bom : Bool) : Bool :=
  if encoding = .CP932 then true
  else if include_utf8_no_bom && encoding = .UTF8_NO_BOM then true
  else false

/-- Model of `detector.is_warning_encoding`. -/
def is_warning_encoding (encoding : Encoding) : Bool :=
  encoding = .UTF16_LE || encoding = .UTF16_BE ||
  encoding = .BINARY || encoding = .UNKNOWN

/-- The state of one filesystem location. -/
inductive Entry where
  | absent
  | denied
  | file (data : List Nat)
deriving DecidableEq, Repr

/-- An explicit filesystem state: a finite map from paths to entries plus
the set of directories created so far. -/
structure FS where
  files : List (PathC × Entry)
  dirs : List PathC
deriving DecidableEq, Repr

/-- Look a path up in an association list of entries. -/
def lookupEntries : List (PathC × Entry) → PathC → Entry
  | [], _ => .absent
  | (q, w) :: rest, p => if q = p then w else lookupEntries rest p

/-- Update an association list of entries at a path. -/
def setEntries : List (PathC × Entry) → PathC → Entry → List (PathC × Entry)
  | [], p, v => [(p, v)]
  | (q, w) :: rest, p, v =>
    if q = p then (p, v) :: rest else (q, w) :: setEntries rest p v

/-- Read the entry at a path. -/
def FS.lookup (fs : FS) (p : PathC) : Entry :=
  lookupEntries fs.files p

/-- The errors a per-file operation can raise: `PermissionError`,
`FileNotFoundError`, and any other exception carrying its message. -/
inductive IOErr where
  | permission
  | notFound
  | other (msg : String)
deriving DecidableEq, Repr

/-- The message each exception class is mapped to by `convert_file`'s
handlers. -/
def errMessage : IOErr → String
  | .permission => "Permission denied"
  | .notFound => "File not found"
  | .other m => m

/-- Write bytes at a path (fails with `PermissionError` on a denied
location). -/
def FS.write (fs : FS) (p : PathC) (data : List Nat) : Except IOErr FS :=
  match fs.lookup p with
  | .denied => .error .permission
  | _ => .ok { fs with files := setEntries fs.files p (.file data) }

/-- Read the bytes at a path (`Path.read_bytes`). -/
def FS.readBytes (fs : FS) (p : PathC) : Except IOErr (List Nat) :=
  match fs.lookup p with
  | .absent => .error .notFound
  | .denied => .error .permission
  | .file data => .ok data

/-- Model of `mkdir(parents=True, exist_ok=True)`: record a directory as created. -/
def FS.addDir (fs : FS) (p : PathC) : FS :=
  { fs with dirs := p :: fs.dirs }

/-- Model of `detector.detect_encoding`: read the file and classify its bytes. -/
def detect_encoding (cp : Cp932) (fs : FS) (file_path : PathC) :
    Except IOErr Encoding :=
  (fs.readBytes file_path).map (detect_encoding_from_bytes cp)

/-- Model of `converter.read_file_content`: read the file and decode it according to
the detected encoding, returning the text and the original bytes. -/
def read_file_content (cp : Cp932) (fs : FS) (file_path : PathC)
    (encoding : Encoding) : Except IOErr (List Nat × List Nat) := do
  let data ← fs.readBytes file_path
  match encoding with
  | .UTF8_BOM =>
    match Utf8.decode (data.drop 3) with
    | some text => .ok (text, data)
    | none => .error (.other "UnicodeDecodeError: utf-8")
  | .CP932 =>
    match cp.decode data with
    | some text => .ok (text, data)
    | none => .error (.other "UnicodeDecodeError: cp932")
  | .UTF8_NO_BOM =>
    match Utf8.decode data with
    | some text => .ok (text, data)
    | none => .error (.other "UnicodeDecodeError: utf-8")
  | e => .error (.other ("Cannot read content with encoding: " ++ encodingValue e))

/-- Model of `converter.convert_to_utf8_bom`: re-encode the text as UTF-8 and prefix
the byte-order-mark (the original bytes are only consulted for newline
preservation, which decoding already left intact). -/
def convert_to_utf8_bom (text : List Nat) (original_data : List Nat) :
    List Nat :=
  UTF8_BOM ++ Utf8.encode text

/-- Model of `converter.atomic_write`: the temporary-file-then-rename discipline,
modelled as a single whole-file write. -/
def atomic_write (fs : FS) (file_path : PathC) (content : List Nat) :
    Except IOErr FS :=
  fs.write file_path content

/-- Model of `backup.get_backup_path`: backup root / run id / path relative to the
target root (fails where `Path.relative_to` raises `ValueError`). -/
def get_backup_path (file_path target_root backup_dir : PathC)
    (run_id : String) : Option PathC :=
  (relative_to file_path target_root).map
    (fun rel => backup_dir ++ run_id :: rel)

/-- Model of `backup.create_backup`: compute the backup path, create its parent
directories and copy the file there. -/
def create_backup (fs : FS) (file_path target_root backup_dir : PathC)
    (run_id : String) : Except IOErr (FS × PathC) :=
  match get_backup_path file_path target_root backup_dir run_id with
  | none =>
    .error (.other (joinPath file_path ++ " is not in the subpath of " ++
      joinPath target_root))
  | some backup_path => do
    let fs := fs.addDir backup_path.dropLast
    let data ← fs.readBytes file_path
    let fs ← fs.write backup_path data
    .ok (fs, backup_path)

/-- The body of `converter.convert_file` before its exception handlers,
threading the filesystem state and surfacing exceptions explicitly. -/
def convertFileExcept (cp : Cp932) (fs : FS) (file_path : PathC)
    (config : ConversionConfig) (run_id : String) :
    FS × Except IOErr (FileResult × Option ConvertedFileInfo) :=
  match detect_encoding cp fs file_path with
  | .error e => (fs, .error e)
  | .ok encoding =>
    if is_warning_encoding encoding then
      (fs, .ok ({ path := file_path, status := .WARNING,
                  source_encoding := some encoding,
                  message := some ("Skipped: " ++ encodingValue encoding) },
                none))
    else if ¬ should_convert encoding config.include_utf8_no_bom then
      (fs, .ok ({ path := file_path, status := .SKIPPED,
                  source_encoding := some encoding,
                  message := some ("Already " ++ encodingValue encoding) },
                none))
    else if ¬ config.execute then
      (fs, .ok ({ path := file_path, status := .CONVERTED,
                  source_encoding := some encoding,
                  message := some "Would convert (dry run)" },
                none))
    else
      match read_file_content cp fs file_path encoding with
      | .error e => (fs, .error e)
      | .ok (text, original_data) =>
        match create_backup fs file_path (resolvePath config.target_path)
            (resolvePath config.backup_dir) run_id with
        | .error e => (fs, .error e)
        | .ok (fs1, backup_path) =>
          let converted_data := convert_to_utf8_bom text original_data
          match atomic_write fs1 file_path converted_data with
          | .error e => (fs1, .error e)
          | .ok fs2 =>
            match relative_to file_path (resolvePath config.target_path),
                relative_to backup_path (resolvePath config.backup_dir) with
            | some rel, some brel =>
              (fs2, .ok ({ path := file_path, status := .CONVERTED,
                           source_encoding := some encoding,
                           message := some "Converted successfully" },
                         some { relative_path := joinPath rel,
                                source_encoding := encodingValue encoding,
                                backup_path := joinPath brel }))
            | _, _ => (fs2, .error (.other "path is not relative to root"))

/-- Model of `converter.convert_file`: the per-file pipeline with its exception
handlers, always producing exactly one `FileResult`. -/
def convert_file (cp : Cp932) (fs : FS) (file_path : PathC)
    (config : ConversionConfig) (run_id : String) :
    FS × FileResult × Option ConvertedFileInfo :=
  match convertFileExcept cp fs file_path config run_id with
  | (fs1, .ok (result, info)) => (fs1, result, info)
  | (fs1, .error e) =>
    (fs1, { path := file_path, status := .ERROR,
            message := some (errMessage e) }, none)

/-- Model of `converter.update_summary`, as a state-passing function. -/
def update_summary (summary : ConversionSummary) (result : FileResult) :
    ConversionSummary :=
  let s := { summary with total_files := summary.total_files + 1 }
  let s :=
    match result.status with
    | .CONVERTED => { s with converted := s.converted + 1 }
    | .SKIPPED => { s with skipped := s.skipped + 1 }
    | .WARNING => { s with warnings := s.warnings + 1 }
    | .ERROR => { s with errors := s.errors + 1 }
  match result.source_encoding with
  | none => s
  | some enc =>
    match enc with
    | .CP932 => { s with cp932_count := s.cp932_count + 1 }
    | .UTF8_BOM => { s with utf8_bom_count := s.utf8_bom_count + 1 }
    | .UTF8_NO_BOM => { s with utf8_no_bom_count := s.utf8_no_bom_count + 1 }
    | .UTF16_LE => { s with utf16_count := s.utf16_count + 1 }
    | .UTF16_BE => { s with utf16_count := s.utf16_count + 1 }
    | .BINARY => { s with binary_count := s.binary_count + 1 }
    | .UNKNOWN => { s with unknown_count := s.unknown_count + 1 }

/-- The scan-and-convert loop of `cli.run_conversion`: convert each scanned
path in order, folding results into the summary and collecting manifest
entries. -/
def run_loop (cp : Cp932) (config : ConversionConfig) (run_id : String) :
    FS → List PathC → ConversionSummary → List ConvertedFileInfo →
    FS × ConversionSummary × List ConvertedFileInfo
  | fs, [], summary, infos => (fs, summary, infos)
  | fs, p :: ps, summary, infos =>
    match convert_file cp fs p config run_id with
    | (fs1, result, info) =>
      run_loop cp config run_id fs1 ps (update_summary summary result)
        (infos ++ info.toList)

/-- Look a key up in a JSON object (a `KeyError` if absent or not an
object). -/
def jsonGet (j : Json) (key : String) : Except String Json :=
  match j with
  | .obj fields =>
    match fields.lookup key with
    | some v => .ok v
    | none => .error ("KeyError: " ++ key)
  | _ => .error ("KeyError: " ++ key)

/-- Expect a JSON string. -/
def jsonStr : Json → Except String String
  | .str s => .ok s
  | _ => .error "TypeError: expected a string"

/-- Expect a JSON array. -/
def jsonArr : Json → Except String (List Json)
  | .arr elems => .ok elems
  | _ => .error "TypeError: expected an array"

/-- The dictionary form of one `ConvertedFileInfo` inside
`RunManifest.to_dict`. -/
def ConvertedFileInfo.toJson (f : ConvertedFileInfo) : Json :=
  .obj [("relative_path", .str f.relative_path),
        ("source_encoding", .str f.source_encoding),
        ("backup_path", .str f.backup_path)]

/-- Rebuilding one `ConvertedFileInfo` inside `RunManifest.from_dict`. -/
def ConvertedFileInfo.fromJson (j : Json) : Except String ConvertedFileInfo := do
  let rel ← jsonStr (← jsonGet j "relative_path")
  let enc ← jsonStr (← jsonGet j "source_encoding")
  let bak ← jsonStr (← jsonGet j "backup_path")
  .ok { relative_path := rel, source_encoding := enc, backup_path := bak }

/-- Model of `RunManifest.to_dict`. -/
def RunManifest.to_dict (m : RunManifest) : Json :=
  .obj [("run_id", .str m.run_id),
        ("timestamp", .str m.timestamp),
        ("target_path", .str m.target_path),
        ("converted_files", .arr (m.converted_files.map ConvertedFileInfo.toJson)),
        ("config", m.config)]

/-- Model of `RunManifest.from_dict` (a `KeyError` surfaces as the error case). -/
def RunManifest.from_dict (data : Json) : Except String RunManifest := do
  let run_id ← jsonStr (← jsonGet data "run_id")
  let timestamp ← jsonStr (← jsonGet data "timestamp")
  let target_path ← jsonStr (← jsonGet data "target_path")
  let files ← jsonArr (← jsonGet data "converted_files")
  let converted ← files.mapM ConvertedFileInfo.fromJson
  let config ← jsonGet data "config"
  .ok { run_id := run_id, timestamp := timestamp, target_path := target_path,
        converted_files := converted, config := config }

/-- The durable manifest storage: a map from manifest paths to the JSON
document persisted there (the `json.dump`/`json.load` text layer of
`save_manifest`/`load_manifest` round-trips the document itself). -/
abbrev ManifestStore := List (PathC × Json)

/-- Read a stored manifest document. -/
def storeLookup : ManifestStore → PathC → Option Json
  | [], _ => none
  | (q, j) :: rest, p => if q = p then some j else storeLookup rest p

/-- Model of `backup.get_manifest_path`. -/
def get_manifest_path (backup_dir : PathC) (run_id : String) : PathC :=
  backup_dir ++ [run_id, "manifest.json"]

/-- Model of `backup.save_manifest`: persist the manifest's dictionary form at its
manifest path. -/
def save_manifest (manifest : RunManifest) (backup_dir : PathC)
    (store : ManifestStore) : ManifestStore :=
  (get_manifest_path backup_dir manifest.run_id, manifest.to_dict) :: store

/-- Model of `backup.load_manifest`: `none` is the explicit absence signal; a stored
document is rebuilt with `RunManifest.from_dict`. -/
def load_manifest (store : ManifestStore) (backup_dir : PathC)
    (run_id : String) : Option (Except String RunManifest) :=
  (storeLookup store (get_manifest_path backup_dir run_id)).map
    RunManifest.from_dict

/-- The failures `restore_backup` can raise. -/
inductive RestoreErr where
  | backupNotFound (run_id : String)
  | manifestParse (msg : String)
  | traversal (description : String) (path root : PathC)
  | missingBackup (path : PathC)
  | copyFailed (path : PathC)
deriving DecidableEq, Repr

/-- Model of `backup._validate_path_within`: resolve the path and reject it unless it
stays inside the resolved root. -/
def validate_path_within (path root : PathC) (description : String) :
    Except RestoreErr PathC :=
  let resolved := resolvePath path
  let root_resolved := resolvePath root
  if root_resolved.isPrefixOf resolved then .ok resolved
  else .error (.traversal description path root_resolved)

/-- The entry loop of `backup.restore_backup`: validate both sides of each
entry, then copy the backup over the live target, in manifest order. -/
def restoreLoop (backup_root target_root : PathC) :
    FS → List ConvertedFileInfo → FS × Except RestoreErr (List PathC)
  | fs, [] => (fs, .ok [])
  | fs, info :: rest =>
    match validate_path_within (backup_root ++ splitSlash info.relative_path)
        backup_root "backup path" with
    | .error e => (fs, .error e)
    | .ok backup_path =>
      match validate_path_within (target_root ++ splitSlash info.relative_path)
          target_root "target path" with
      | .error e => (fs, .error e)
      | .ok target_path =>
        match fs.lookup backup_path with
        | .absent => (fs, .error (.missingBackup backup_path))
        | .denied => (fs, .error (.copyFailed backup_path))
        | .file data =>
          match fs.write target_path data with
          | .error _ => (fs, .error (.copyFailed target_path))
          | .ok fs1 =>
            match restoreLoop backup_root target_root fs1 rest with
            | (fs2, .ok restored) => (fs2, .ok (target_path :: restored))
            | (fs2, .error e) => (fs2, .error e)

/-- Model of `backup.restore_backup`: load the manifest (failing when absent) and
restore every recorded entry. -/
def restore_backup (store : ManifestStore) (fs : FS) (backup_dir : PathC)
    (run_id : String) : FS × Except RestoreErr (List PathC) :=
  match load_manifest store backup_dir run_id with
  | none => (fs, .error (.backupNotFound run_id))
  | some (.error msg) => (fs, .error (.manifestParse msg))
  | some (.ok manifest) =>
    restoreLoop (backup_dir ++ [run_id]) (splitSlash manifest.target_path)
      fs manifest.converted_files

/-- Membership of a character in a glob character class: a `-` between two
characters denotes a range, elsewhere it is literal (models
`fnmatch.translate` class handling). -/
def classHas (c : Char) : List Char → Bool
  | [] => false
  | a :: '-' :: b :: rest => (a ≤ c && c ≤ b) || classHas c rest
  | a :: rest => (a = c) || classHas c rest

/-- Scan for the closing `]` of a glob character class; a `]` in first
position is a literal member.  Returns the class body and the remaining
pattern, or `none` when the class is unterminated. -/
def splitClassAux : List Char → List Char → Option (List Char × List Char)
  | _, [] => none
  | acc, c :: rest =>
    if c = ']' && !acc.isEmpty then some (acc.reverse, rest)
    else splitClassAux (c :: acc) rest

/-- A parsed glob pattern element. -/
inductive GlobTok where
  | lit (c : Char)
  | anyOne
  | star
  | cls (neg : Bool) (items : List Char)
deriving DecidableEq, Repr

/-- A terminated class scan consumes at least the closing bracket. -/
theorem splitClassAux_shrink :
    ∀ acc l items rest, splitClassAux acc l = some (items, rest) →
      rest.length < l.length := by
  intro acc l
  induction l generalizing acc with
  | nil => intro items rest h; simp [splitClassAux] at h
  | cons c cs ih =>
    intro items rest h
    rw [splitClassAux] at h
    split_ifs at h with hcl
    · cases h
      simp
    · have := ih (c :: acc) items rest h
      simp only [List.length_cons]
      omega

/-- Parse a glob pattern into tokens (`*`, `?`, classes, literals); an
unterminated `[` is a literal, as in `fnmatch.translate`. -/
def parseGlob : List Char → List GlobTok
  | [] => []
  | '*' :: ps => .star :: parseGlob ps
  | '?' :: ps => .anyOne :: parseGlob ps
  | '[' :: '!' :: body =>
    match h : splitClassAux [] body with
    | some (items, after) => .cls true items :: parseGlob after
    | none => .lit '[' :: parseGlob ('!' :: body)
  | '[' :: ps =>
    match h : splitClassAux [] ps with
    | some (items, after) => .cls false items :: parseGlob after
    | none => .lit '[' :: parseGlob ps
  | c :: ps => .lit c :: parseGlob ps
termination_by l => l.length
decreasing_by
  all_goals simp only [List.length_cons]
  all_goals first
    | omega
    | (have hlt := splitClassAux_shrink _ _ _ _ h; omega)

/-- Match a token list against a string (glob semantics: `*` matches any
run, `?` any one character, classes one member). -/
def globToksMatch : List GlobTok → List Char → Bool
  | [], [] => true
  | [], _ :: _ => false
  | .star :: ts, s =>
    globToksMatch ts s ||
      (match s with
       | [] => false
       | _ :: s1 => globToksMatch (.star :: ts) s1)
  | .anyOne :: _, [] => false
  | .anyOne :: ts, _ :: s1 => globToksMatch ts s1
  | .lit _ :: _, [] => false
  | .lit c :: ts, d :: s1 => (c = d) && globToksMatch ts s1
  | .cls _ _ :: _, [] => false
  | .cls neg items :: ts, d :: s1 =>
    (neg != classHas d items) && globToksMatch ts s1
termination_by ts s => (ts.length, s.length)

/-- Model of `fnmatch.fnmatch` on a POSIX platform (no case folding). -/
def fnmatch (name pattern : String) : Bool :=
  globToksMatch (parseGlob pattern.data) name.data

/-- Strip trailing `/` characters (`str.rstrip("/")`). -/
def rstripSlash (s : String) : String :=
  String.mk ((s.data.reverse.dropWhile (· = '/')).reverse)

/-- Model of `scanner.should_exclude_dir`: a directory name is excluded when it
matches a directory pattern (one ending in `/`). -/
def should_exclude_dir (dir_name : String) (patterns : List String) : Bool :=
  patterns.any (fun pattern =>
    pattern.endsWith "/" && fnmatch dir_name (rstripSlash pattern))

/-- Model of `Path.suffix`: the final `.xyz` of the last component, empty for names
with no interior dot. -/
def findLastDot : List Char → Option Nat
  | [] => none
  | c :: cs =>
    match findLastDot cs with
    | some i => some (i + 1)
    | none => if c = '.' then some 0 else none

/-- Model of `Path.suffix` on a file name. -/
def pathSuffix (name : String) : String :=
  match findLastDot name.data with
  | some i =>
    if 0 < i ∧ i < name.length - 1 then String.mk (name.data.drop i) else ""
  | none => ""

/-- Model of `scanner.matches_file_exclude_pattern`: a file is excluded when its name
or its forward-slash relative path matches a non-directory pattern. -/
def matches_file_exclude_pattern (file_path base_path : PathC)
    (patterns : List String) : Bool :=
  match relative_to file_path base_path with
  | none => false
  | some rel =>
    let relative_str := joinPath rel
    let name := rel.getLastD ""
    patterns.any (fun pattern =>
      if pattern.endsWith "/" then false
      else fnmatch name pattern || fnmatch relative_str pattern)

/-- A directory tree: named subdirectories and file names, standing for the
on-disk tree that `os.walk` traverses. -/
inductive DirTree where
  | node (subdirs : List (String × DirTree)) (files : List String)

/-- Normalisation of one configured extension (lower case, leading dot). -/
def normalizeExt (ext : String) : String :=
  if ext.startsWith "." then ext.toLower else "." ++ ext.toLower

mutual

/-- The `os.walk` traversal of `scanner.scan_files`: yield this directory's
matching files, then descend into non-excluded subdirectories in order. -/
def walkTree (patterns exts : List String) (base : PathC) :
    PathC → DirTree → List PathC
  | cur, .node subdirs files =>
    files.filterMap (fun file_name =>
      let file_path := cur ++ [file_name]
      if (pathSuffix file_name).toLower ∈ exts &&
          !matches_file_exclude_pattern file_path base patterns then
        some file_path
      else none)
    ++ walkSubdirs patterns exts base cur subdirs

/-- Descend into each subdirectory unless its name is excluded. -/
def walkSubdirs (patterns exts : List String) (base : PathC) :
    PathC → List (String × DirTree) → List PathC
  | _, [] => []
  | cur, (d, t) :: rest =>
    (if should_exclude_dir d patterns then []
     else walkTree patterns exts base (cur ++ [d]) t)
    ++ walkSubdirs patterns exts base cur rest

end

/-- Model of `scanner.scan_files` over a directory tree rooted at the resolved
target path. -/
def scan_files (config : ConversionConfig) (tree : DirTree) : List PathC :=
  let target_path := resolvePath config.target_path
  let exclude_patterns := DEFAULT_EXCLUDE_PATTERNS ++ config.exclude_patterns
  let extensions := config.extensions.map normalizeExt
  walkTree exclude_patterns extensions target_path target_path tree

/-- A concrete codec instance for the single-byte fragment of CP932: ASCII
plus the halfwidth-katakana range `0xA1`–`0xDF` (mapped to
`U+FF61`–`U+FF9F`). -/
def katakanaCp932 : Cp932 where
  decode data :=
    if data.all (fun b => b < 0x80 || (0xA1 ≤ b && b ≤ 0xDF)) then
      some (data.map (fun b => if b < 0x80 then b else 0xFF61 + (b - 0xA1)))
    else none
  decode_scalar data text h c hc := by
    dsimp only at h
    split_ifs at h with hall
    · cases h
      simp only [List.mem_map] at hc
      obtain ⟨b, hb, hbc⟩ := hc
      have := List.all_eq_true.mp hall b hb
      simp only [Bool.or_eq_true, Bool.and_eq_true, decide_eq_true_eq] at this
      unfold Utf8.ScalarValue
      subst hbc
      split_ifs <;> omega

/-- Looking up a key after an association-list update. -/
theorem lookupEntries_setEntries (l : List (PathC × Entry)) (p : PathC)
    (v : Entry) (q : PathC) :
    lookupEntries (setEntries l p v) q = if q = p then v else lookupEntries l q := by
  induction l with
  | nil =>
    simp only [setEntries, lookupEntries]
    by_cases h : p = q
    · rw [if_pos h, if_pos h.symm]
    · rw [if_neg h, if_neg (fun hc => h hc.symm)]
  | cons hd tl ih =>
    rcases hd with ⟨k, w⟩
    simp only [setEntries]
    by_cases hkp : k = p
    · rw [if_pos hkp]
      simp only [lookupEntries]
      by_cases hpq : p = q
      · rw [if_pos hpq, if_pos hpq.symm]
      · rw [if_neg hpq, if_neg (fun hc => hpq hc.symm),
          if_neg (fun hc => hpq (hkp.symm.trans hc))]
    · rw [if_neg hkp]
      simp only [lookupEntries]
      by_cases hkq : k = q
      · rw [if_pos hkq, if_neg (fun hqp => hkp (hkq.trans hqp)), if_pos hkq]
      · rw [if_neg hkq, ih, if_neg hkq]

/-- A successful write changes exactly the written path. -/
theorem FS.write_lookup (fs : FS) (p : PathC) (data : List Nat) (fs1 : FS)
    (h : fs.write p data = .ok fs1) (q : PathC) :
    fs1.lookup q = if q = p then .file data else fs.lookup q := by
  unfold FS.write at h
  revert h
  cases fs.lookup p <;> intro h
  · cases h
    exact lookupEntries_setEntries fs.files p (.file data) q
  · cases h
  · cases h
    exact lookupEntries_setEntries fs.files p (.file data) q

/-- C6: `should_convert` is true exactly for CP932, or for UTF-8 without
BOM when the include flag is set; every other encoding is never
converted. -/
theorem c6_should_convert_iff :
    ∀ (encoding : Encoding) (include_utf8_no_bom : Bool),
      should_convert encoding include_utf8_no_bom = true ↔
        (encoding = .CP932 ∨
          (include_utf8_no_bom = true ∧ encoding = .UTF8_NO_BOM)) := by
  intro encoding flag
  cases encoding <;> cases flag <;> simp [should_convert]

/-- One `update_summary` call adds one to `total_files` and one to the sum
of the four status counters. -/
theorem update_summary_counts (s : ConversionSummary) (r : FileResult) :
    (update_summary s r).total_files = s.total_files + 1 ∧
    (update_summary s r).converted + (update_summary s r).skipped +
      (update_summary s r).warnings + (update_summary s r).errors =
      s.converted + s.skipped + s.warnings + s.errors + 1 := by
  rcases r with ⟨p, st, se, msg⟩
  cases st <;> rcases se with _ | enc <;> try cases enc
  all_goals simp [update_summary]
  all_goals omega

/-- C10: starting from a zero-initialised `ConversionSummary`, after any
sequence of `update_summary` calls `total_files` equals
`converted + skipped + warnings + errors`. -/
theorem c10_summary_consistency (results : List FileResult) :
    (results.foldl update_summary {}).total_files =
      (results.foldl update_summary {}).converted +
        (results.foldl update_summary {}).skipped +
        (results.foldl update_summary {}).warnings +
        (results.foldl update_summary {}).errors := by
  suffices h : ∀ s : ConversionSummary,
      s.total_files = s.converted + s.skipped + s.warnings + s.errors →
      (results.foldl update_summary s).total_files =
        (results.foldl update_summary s).converted +
          (results.foldl update_summary s).skipped +
          (results.foldl update_summary s).warnings +
          (results.foldl update_summary s).errors by
    exact h {} rfl
  induction results with
  | nil => intro s hs; exact hs
  | cons r rs ih =>
    intro s hs
    simp only [List.foldl_cons]
    apply ih
    obtain ⟨h1, h2⟩ := update_summary_counts s r
    omega

/-- C1: `detect_encoding_from_bytes` applies the fixed ordered rules, first
match winning: the UTF-8 BOM, UTF-16 LE BOM and UTF-16 BE BOM prefixes,
then the empty buffer, then any NUL byte, then strict UTF-8 validity, then
strict CP932 validity, and otherwise UNKNOWN. -/
theorem c1_detect_ordered_rules (cp : Cp932) (data : List Nat) :
    (UTF8_BOM.isPrefixOf data = true →
      detect_encoding_from_bytes cp data = .UTF8_BOM) ∧
    (UTF8_BOM.isPrefixOf data = false → UTF16_LE_BOM.isPrefixOf data = true →
      detect_encoding_from_bytes cp data = .UTF16_LE) ∧
    (UTF8_BOM.isPrefixOf data = false → UTF16_LE_BOM.isPrefixOf data = false →
      UTF16_BE_BOM.isPrefixOf data = true →
      detect_encoding_from_bytes cp data = .UTF16_BE) ∧
    (UTF8_BOM.isPrefixOf data = false → UTF16_LE_BOM.isPrefixOf data = false →
      UTF16_BE_BOM.isPrefixOf data = false → data = [] →
      detect_encoding_from_bytes cp data = .UTF8_NO_BOM) ∧
    (UTF8_BOM.isPrefixOf data = false → UTF16_LE_BOM.isPrefixOf data = false →
      UTF16_BE_BOM.isPrefixOf data = false → data ≠ [] →
      data.contains 0 = true →
      detect_encoding_from_bytes cp data = .BINARY) ∧
    (UTF8_BOM.isPrefixOf data = false → UTF16_LE_BOM.isPrefixOf data = false →
      UTF16_BE_BOM.isPrefixOf data = false → data ≠ [] →
      data.contains 0 = false → (Utf8.decode data).isSome = true →
      detect_encoding_from_bytes cp data = .UTF8_NO_BOM) ∧
    (UTF8_BOM.isPrefixOf data = false → UTF16_LE_BOM.isPrefixOf data = false →
      UTF16_BE_BOM.isPrefixOf data = false → data ≠ [] →
      data.contains 0 = false → (Utf8.decode data).isSome = false →
      (cp.decode data).isSome = true →
      detect_encoding_from_bytes cp data = .CP932) ∧
    (UTF8_BOM.isPrefixOf data = false → UTF16_LE_BOM.isPrefixOf data = false →
      UTF16_BE_BOM.isPrefixOf data = false → data ≠ [] →
      data.contains 0 = false → (Utf8.decode data).isSome = false →
      (cp.decode data).isSome = false →
      detect_encoding_from_bytes cp data = .UNKNOWN) := by
  refine ⟨?_, ?_, ?_, ?_, ?_, ?_, ?_, ?_⟩ <;>
    (intros; simp_all [detect_encoding_from_bytes])

/-- Witness for C1 at concrete buffers, one per late rule. -/
theorem c1_witness :
    detect_encoding_from_bytes katakanaCp932 [0xEF, 0xBB, 0xBF, 0x00] =
      .UTF8_BOM ∧
    detect_encoding_from_bytes katakanaCp932 [0x41, 0x00] = .BINARY ∧
    detect_encoding_from_bytes katakanaCp932 [0xB1] = .CP932 ∧
    detect_encoding_from_bytes katakanaCp932 [0x80] = .UNKNOWN :=
  ⟨(c1_detect_ordered_rules katakanaCp932 _).1 (by decide),
   (c1_detect_ordered_rules katakanaCp932 _).2.2.2.2.1
     (by decide) (by decide) (by decide) (by decide) (by decide),
   (c1_detect_ordered_rules katakanaCp932 _).2.2.2.2.2.2.1
     (by decide) (by decide) (by decide) (by decide) (by decide) (by decide)
     (by decide),
   (c1_detect_ordered_rules katakanaCp932 _).2.2.2.2.2.2.2
     (by decide) (by decide) (by decide) (by decide) (by decide) (by decide)
     (by decide)⟩

/-- A missing file maps to the `File not found` ERROR result. -/
theorem convert_file_notFound (cp : Cp932) (fs : FS) (p : PathC)
    (config : ConversionConfig) (rid : String)
    (h : fs.lookup p = .absent) :
    convert_file cp fs p config rid =
      (fs, { path := p, status := .ERROR, source_encoding := none,
             message := some "File not found" }, none) := by
  unfold convert_file convertFileExcept detect_encoding FS.readBytes
  rw [h]
  rfl

/-- A permission failure maps to the `Permission denied` ERROR result. -/
theorem convert_file_denied (cp : Cp932) (fs : FS) (p : PathC)
    (config : ConversionConfig) (rid : String)
    (h : fs.lookup p = .denied) :
    convert_file cp fs p config rid =
      (fs, { path := p, status := .ERROR, source_encoding := none,
             message := some "Permission denied" }, none) := by
  unfold convert_file convertFileExcept detect_encoding FS.readBytes
  rw [h]
  rfl

/-- A warning-class encoding yields a WARNING result and no side effect. -/
theorem convert_file_warning (cp : Cp932) (fs : FS) (p : PathC)
    (config : ConversionConfig) (rid : String) (data : List Nat)
    (hfile : fs.lookup p = .file data)
    (hw : is_warning_encoding (detect_encoding_from_bytes cp data) = true) :
    convert_file cp fs p config rid =
      (fs, { path := p, status := .WARNING,
             source_encoding := some (detect_encoding_from_bytes cp data),
             message := some ("Skipped: " ++
               encodingValue (detect_encoding_from_bytes cp data)) },
       none) := by
  unfold convert_file convertFileExcept detect_encoding FS.readBytes
  rw [hfile]
  dsimp only [Except.map]
  rw [if_pos hw]

/-- A non-warning, non-convertible encoding yields a SKIPPED result and no
side effect. -/
theorem convert_file_skip (cp : Cp932) (fs : FS) (p : PathC)
    (config : ConversionConfig) (rid : String) (data : List Nat)
    (hfile : fs.lookup p = .file data)
    (hw : is_warning_encoding (detect_encoding_from_bytes cp data) = false)
    (hs : should_convert (detect_encoding_from_bytes cp data)
      config.include_utf8_no_bom = false) :
    convert_file cp fs p config rid =
      (fs, { path := p, status := .SKIPPED,
             source_encoding := some (detect_encoding_from_bytes cp data),
             message := some ("Already " ++
               encodingValue (detect_encoding_from_bytes cp data)) },
       none) := by
  unfold convert_file convertFileExcept detect_encoding FS.readBytes
  rw [hfile]
  dsimp only [Except.map]
  rw [if_neg (by rw [hw]; exact Bool.false_ne_true),
    if_pos (by rw [hs]; exact Bool.false_ne_true)]

/-- A convertible file in dry-run mode yields the would-convert CONVERTED
result and no side effect. -/
theorem convert_file_dry (cp : Cp932) (fs : FS) (p : PathC)
    (config : ConversionConfig) (rid : String) (data : List Nat)
    (hfile : fs.lookup p = .file data)
    (hw : is_warning_encoding (detect_encoding_from_bytes cp data) = false)
    (hs : should_convert (detect_encoding_from_bytes cp data)
      config.include_utf8_no_bom = true)
    (hexec : config.execute = false) :
    convert_file cp fs p config rid =
      (fs, { path := p, status := .CONVERTED,
             source_encoding := some (detect_encoding_from_bytes cp data),
             message := some "Would convert (dry run)" },
       none) := by
  unfold convert_file convertFileExcept detect_encoding FS.readBytes
  rw [hfile]
  dsimp only [Except.map]
  rw [if_neg (by rw [hw]; exact Bool.false_ne_true),
    if_neg (by rw [hs]; simp),
    if_pos (by rw [hexec]; exact Bool.false_ne_true)]

/-- Rebuilding one manifest entry from its dictionary form recovers it. -/
theorem fromJson_toJson (f : ConvertedFileInfo) :
    ConvertedFileInfo.fromJson f.toJson = .ok f := by
  rcases f with ⟨rel, enc, bak⟩
  rfl

/-- Rebuilding a whole entry list from its dictionary forms recovers it. -/
theorem mapM_fromJson_toJson (l : List ConvertedFileInfo) :
    (l.map ConvertedFileInfo.toJson).mapM ConvertedFileInfo.fromJson =
      Except.ok l := by
  induction l with
  | nil => rfl
  | cons f fs ih =>
    simp only [List.map_cons, List.mapM_cons, fromJson_toJson, ih]
    rfl

/-- C8: `RunManifest.from_dict` after `RunManifest.to_dict` recovers the
manifest exactly, and `load_manifest` after `save_manifest` for the same
backup directory and run id returns the saved manifest, not the absence
signal. -/
theorem c8_manifest_round_trip (m : RunManifest) (store : ManifestStore)
    (backup_dir : PathC) :
    RunManifest.from_dict m.to_dict = .ok m ∧
    load_manifest (save_manifest m backup_dir store) backup_dir m.run_id =
      some (.ok m) := by
  have h1 : RunManifest.from_dict m.to_dict = .ok m := by
    rcases m with ⟨rid, ts, tp, files, config⟩
    calc RunManifest.from_dict
          (RunManifest.to_dict ⟨rid, ts, tp, files, config⟩)
        = ((files.map ConvertedFileInfo.toJson).mapM
            ConvertedFileInfo.fromJson) >>= (fun converted =>
              Except.ok ⟨rid, ts, tp, converted, config⟩) := rfl
      _ = .ok ⟨rid, ts, tp, files, config⟩ := by
          rw [mapM_fromJson_toJson]
          rfl
  refine ⟨h1, ?_⟩
  unfold load_manifest save_manifest storeLookup
  rw [if_pos rfl]
  dsimp only [Option.map]
  rw [h1]

/-- A convertible encoding is never warning-class. -/
theorem not_warning_of_should_convert (e : Encoding) (flag : Bool)
    (h : should_convert e flag = true) : is_warning_encoding e = false := by
  cases e <;> cases flag <;> simp_all [should_convert, is_warning_encoding]

/-- C4: with `execute = false` (dry run), `convert_file` performs no
filesystem mutation at all — the state (files and directories) is returned
unchanged and no `ConvertedFileInfo` is produced — and a readable file
whose detected encoding satisfies `should_convert` yields the CONVERTED
result tagged `Would convert (dry run)`. -/
theorem c4_dry_run_pure (cp : Cp932) (fs : FS) (file_path : PathC)
    (config : ConversionConfig) (run_id : String)
    (hexec : config.execute = false) :
    (convert_file cp fs file_path config run_id).1 = fs ∧
    (convert_file cp fs file_path config run_id).2.2 = none ∧
    (∀ data, fs.lookup file_path = .file data →
      should_convert (detect_encoding_from_bytes cp data)
          config.include_utf8_no_bom = true →
      (convert_file cp fs file_path config run_id).2.1 =
        { path := file_path, status := .CONVERTED,
          source_encoding := some (detect_encoding_from_bytes cp data),
          message := some "Would convert (dry run)" }) := by
  cases hl : fs.lookup file_path with
  | absent =>
    rw [convert_file_notFound cp fs file_path config run_id hl]
    exact ⟨rfl, rfl, fun data hd _ => Entry.noConfusion hd⟩
  | denied =>
    rw [convert_file_denied cp fs file_path config run_id hl]
    exact ⟨rfl, rfl, fun data hd _ => Entry.noConfusion hd⟩
  | file data =>
    cases hw : is_warning_encoding (detect_encoding_from_bytes cp data) with
    | true =>
      rw [convert_file_warning cp fs file_path config run_id data hl hw]
      refine ⟨rfl, rfl, fun data2 hd hs2 => ?_⟩
      cases hd
      rw [not_warning_of_should_convert _ _ hs2] at hw
      cases hw
    | false =>
      cases hs : should_convert (detect_encoding_from_bytes cp data)
          config.include_utf8_no_bom with
      | false =>
        rw [convert_file_skip cp fs file_path config run_id data hl hw hs]
        refine ⟨rfl, rfl, fun data2 hd hs2 => ?_⟩
        cases hd
        rw [hs] at hs2
        cases hs2
      | true =>
        rw [convert_file_dry cp fs file_path config run_id data hl hw hs hexec]
        refine ⟨rfl, rfl, fun data2 hd _ => ?_⟩
        cases hd
        rfl

/-- Witness for C4 at a concrete dry-run conversion. -/
theorem c4_witness :
    (convert_file katakanaCp932
        { files := [(["t", "a.cs"], .file [0xB1])], dirs := [] }
        ["t", "a.cs"] { target_path := ["t"] } "r").1 =
      { files := [(["t", "a.cs"], .file [0xB1])], dirs := [] } ∧
    (convert_file katakanaCp932
        { files := [(["t", "a.cs"], .file [0xB1])], dirs := [] }
        ["t", "a.cs"] { target_path := ["t"] } "r").2.2 = none ∧
    (convert_file katakanaCp932
        { files := [(["t", "a.cs"], .file [0xB1])], dirs := [] }
        ["t", "a.cs"] { target_path := ["t"] } "r").2.1 =
      { path := ["t", "a.cs"], status := .CONVERTED,
        source_encoding := some .CP932,
        message := some "Would convert (dry run)" } := by
  have h := c4_dry_run_pure katakanaCp932
    { files := [(["t", "a.cs"], .file [0xB1])], dirs := [] }
    ["t", "a.cs"] { target_path := ["t"] } "r" rfl
  exact ⟨h.1, h.2.1, h.2.2 [0xB1] rfl (by decide)⟩

/-- C5: `convert_file` is total by construction (it is a function into
`FS × FileResult × Option ConvertedFileInfo`), a permission failure maps to
the `Permission denied` ERROR result, a missing file maps to the distinct
`File not found` ERROR result, and any other internal failure surfaces as
an ERROR result carrying that failure's message. -/
theorem c5_error_totality (cp : Cp932) (fs : FS) (file_path : PathC)
    (config : ConversionConfig) (run_id : String) :
    (fs.lookup file_path = .denied →
      convert_file cp fs file_path config run_id =
        (fs, { path := file_path, status := .ERROR, source_encoding := none,
               message := some "Permission denied" }, none)) ∧
    (fs.lookup file_path = .absent →
      convert_file cp fs file_path config run_id =
        (fs, { path := file_path, status := .ERROR, source_encoding := none,
               message := some "File not found" }, none)) ∧
    (∀ fs1 e,
      convertFileExcept cp fs file_path config run_id = (fs1, .error e) →
      convert_file cp fs file_path config run_id =
        (fs1, { path := file_path, status := .ERROR, source_encoding := none,
                message := some (errMessage e) }, none)) ∧
    (∀ fs1 result info,
      convertFileExcept cp fs file_path config run_id =
        (fs1, .ok (result, info)) →
      convert_file cp fs file_path config run_id = (fs1, result, info)) ∧
    errMessage .permission = "Permission denied" ∧
    errMessage .notFound = "File not found" ∧
    (∀ msg, errMessage (.other msg) = msg) ∧
    errMessage .permission ≠ errMessage .notFound := by
  refine ⟨fun h => convert_file_denied cp fs file_path config run_id h,
    fun h => convert_file_notFound cp fs file_path config run_id h,
    fun fs1 e h => ?_, fun fs1 result info h => ?_,
    rfl, rfl, fun _ => rfl, by decide⟩
  · unfold convert_file
    rw [h]
  · unfold convert_file
    rw [h]

/-- Witness for C5 at concrete permission-denied and missing-file cases. -/
theorem c5_witness :
    convert_file katakanaCp932
        { files := [(["t", "d.cs"], .denied)], dirs := [] }
        ["t", "d.cs"] { target_path := ["t"] } "r" =
      ({ files := [(["t", "d.cs"], .denied)], dirs := [] },
       { path := ["t", "d.cs"], status := .ERROR, source_encoding := none,
         message := some "Permission denied" }, none) ∧
    convert_file katakanaCp932
        { files := [(["t", "d.cs"], .denied)], dirs := [] }
        ["t", "x.cs"] { target_path := ["t"] } "r" =
      ({ files := [(["t", "d.cs"], .denied)], dirs := [] },
       { path := ["t", "x.cs"], status := .ERROR, source_encoding := none,
         message := some "File not found" }, none) :=
  ⟨(c5_error_totality katakanaCp932
      { files := [(["t", "d.cs"], .denied)], dirs := [] }
      ["t", "d.cs"] { target_path := ["t"] } "r").1 (by decide),
   (c5_error_totality katakanaCp932
      { files := [(["t", "d.cs"], .denied)], dirs := [] }
      ["t", "x.cs"] { target_path := ["t"] } "r").2.1 (by decide)⟩

/-- A file beginning with the UTF-8 BOM detects as UTF8_BOM and is skipped
with no side effect, whatever the configuration. -/
theorem convert_file_bom_skip (cp : Cp932) (fs : FS) (p : PathC)
    (config : ConversionConfig) (rid : String) (data : List Nat)
    (hfile : fs.lookup p = .file data)
    (hbom : UTF8_BOM.isPrefixOf data = true) :
    convert_file cp fs p config rid =
      (fs, { path := p, status := .SKIPPED, source_encoding := some .UTF8_BOM,
             message := some "Already utf-8-bom" }, none) := by
  have hdet : detect_encoding_from_bytes cp data = .UTF8_BOM := by
    unfold detect_encoding_from_bytes
    rw [if_pos hbom]
  have hres := convert_file_skip cp fs p config rid data hfile
    (by rw [hdet]; rfl)
    (by rw [hdet]; simp [should_convert])
  rw [hdet] at hres
  exact hres

/-- The scan-and-convert loop over files that all begin with the UTF-8 BOM
changes nothing: same filesystem, no new conversions, no new manifest
entries. -/
theorem run_loop_bom_fixed (cp : Cp932) (config : ConversionConfig)
    (run_id : String) (fs : FS) :
    ∀ (paths : List PathC) (summary : ConversionSummary)
      (infos : List ConvertedFileInfo),
      (∀ p ∈ paths, ∃ data, fs.lookup p = .file data ∧
        UTF8_BOM.isPrefixOf data = true) →
      (run_loop cp config run_id fs paths summary infos).1 = fs ∧
      (run_loop cp config run_id fs paths summary infos).2.1.converted =
        summary.converted ∧
      (run_loop cp config run_id fs paths summary infos).2.2 = infos := by
  intro paths
  induction paths with
  | nil => intro summary infos _; exact ⟨rfl, rfl, rfl⟩
  | cons p ps ih =>
    intro summary infos hbom
    obtain ⟨data, hf, hb⟩ := hbom p (List.mem_cons_self p ps)
    rw [run_loop, convert_file_bom_skip cp fs p config run_id data hf hb]
    dsimp only
    obtain ⟨ih1, ih2, ih3⟩ := ih
      (update_summary summary
        { path := p, status := .SKIPPED, source_encoding := some .UTF8_BOM,
          message := some "Already utf-8-bom" })
      (infos ++ (none : Option ConvertedFileInfo).toList)
      (fun q hq => hbom q (List.mem_cons_of_mem p hq))
    refine ⟨ih1, ?_, ?_⟩
    · rw [ih2]
      simp [update_summary]
    · rw [ih3]
      simp

/-- C7: a file whose content begins with the UTF-8 byte-order-mark is
classified UTF8_BOM and `convert_file` (also in execute mode) returns a
SKIPPED result with no side effect, so rerunning over a fully converted
tree leaves the filesystem unchanged, adds zero CONVERTED results and
collects zero backup entries. -/
theorem c7_idempotent (cp : Cp932) (config : ConversionConfig)
    (run_id : String) (fs : FS) (paths : List PathC)
    (summary : ConversionSummary) (infos : List ConvertedFileInfo)
    (hexec : config.execute = true)
    (hbom : ∀ p ∈ paths, ∃ data, fs.lookup p = .file data ∧
      UTF8_BOM.isPrefixOf data = true) :
    (∀ p data, fs.lookup p = .file data → UTF8_BOM.isPrefixOf data = true →
      convert_file cp fs p config run_id =
        (fs, { path := p, status := .SKIPPED,
               source_encoding := some .UTF8_BOM,
               message := some "Already utf-8-bom" }, none)) ∧
    (run_loop cp config run_id fs paths summary infos).1 = fs ∧
    (run_loop cp config run_id fs paths summary infos).2.1.converted =
      summary.converted ∧
    (run_loop cp config run_id fs paths summary infos).2.2 = infos :=
  ⟨fun p data hf hb => convert_file_bom_skip cp fs p config run_id data hf hb,
   run_loop_bom_fixed cp config run_id fs paths summary infos hbom⟩

/-- Witness for C7 at a concrete already-converted tree in execute mode. -/
theorem c7_witness :
    (run_loop katakanaCp932 { target_path := ["t"], execute := true } "r"
        { files := [(["t", "a.cs"], .file [0xEF, 0xBB, 0xBF])], dirs := [] }
        [["t", "a.cs"]] {} []).1 =
      { files := [(["t", "a.cs"], .file [0xEF, 0xBB, 0xBF])], dirs := [] } ∧
    (run_loop katakanaCp932 { target_path := ["t"], execute := true } "r"
        { files := [(["t", "a.cs"], .file [0xEF, 0xBB, 0xBF])], dirs := [] }
        [["t", "a.cs"]] {} []).2.1.converted = 0 ∧
    (run_loop katakanaCp932 { target_path := ["t"], execute := true } "r"
        { files := [(["t", "a.cs"], .file [0xEF, 0xBB, 0xBF])], dirs := [] }
        [["t", "a.cs"]] {} []).2.2 = [] := by
  have h := c7_idempotent katakanaCp932
    { target_path := ["t"], execute := true } "r"
    { files := [(["t", "a.cs"], .file [0xEF, 0xBB, 0xBF])], dirs := [] }
    [["t", "a.cs"]] {} [] rfl
    (by
      intro p hp
      simp only [List.mem_singleton] at hp
      subst hp
      exact ⟨[0xEF, 0xBB, 0xBF], rfl, by decide⟩)
  exact ⟨h.2.1, h.2.2.1, h.2.2.2⟩

/-- C3: a buffer that strictly decodes as CP932 to a text `T` is read by
`read_file_content`'s CP932 branch as `(T, data)`; `convert_to_utf8_bom`
produces exactly the bytes `EF BB BF` followed by the UTF-8 encoding of
`T`; and stripping the 3-byte mark and decoding the result as UTF-8
reproduces `T` exactly. -/
theorem c3_cp932_round_trip (cp : Cp932) (fs : FS) (p : PathC)
    (data text : List Nat)
    (hfile : fs.lookup p = .file data)
    (hdec : cp.decode data = some text) :
    read_file_content cp fs p .CP932 = .ok (text, data) ∧
    convert_to_utf8_bom text data = UTF8_BOM ++ Utf8.encode text ∧
    Utf8.decode ((convert_to_utf8_bom text data).drop 3) = some text := by
  refine ⟨?_, rfl, ?_⟩
  · unfold read_file_content FS.readBytes
    rw [hfile]
    show (match cp.decode data with
      | some t => Except.ok (t, data)
      | none => Except.error (IOErr.other "UnicodeDecodeError: cp932")) =
      Except.ok (text, data)
    rw [hdec]
  · have hdrop : (convert_to_utf8_bom text data).drop 3 = Utf8.encode text := rfl
    rw [hdrop]
    exact Utf8.decode_encode text (cp.decode_scalar data text hdec)

/-- Witness for C3 at a concrete CP932 buffer (ASCII `h` plus halfwidth
katakana). -/
theorem c3_witness :
    read_file_content katakanaCp932
        { files := [(["t", "a.cs"], .file [0x68, 0xB1])], dirs := [] }
        ["t", "a.cs"] .CP932 = .ok ([0x68, 0xFF71], [0x68, 0xB1]) ∧
    convert_to_utf8_bom [0x68, 0xFF71] [0x68, 0xB1] =
      UTF8_BOM ++ Utf8.encode [0x68, 0xFF71] ∧
    Utf8.decode ((convert_to_utf8_bom [0x68, 0xFF71] [0x68, 0xB1]).drop 3) =
      some [0x68, 0xFF71] :=
  c3_cp932_round_trip katakanaCp932
    { files := [(["t", "a.cs"], .file [0x68, 0xB1])], dirs := [] }
    ["t", "a.cs"] [0x68, 0xB1] [0x68, 0xFF71] rfl (by decide)

/-- C9: the `assume_cp932` and `strict` configuration flags have no effect:
two configurations differing only in them give identical `convert_file`
results (state, result and manifest entry) and identical `scan_files`
sequences. -/
theorem c9_unused_flags (cp : Cp932) (fs : FS) (p : PathC) (rid : String)
    (tree : DirTree) (c : ConversionConfig) (a s : Bool) :
    convert_file cp fs p { c with assume_cp932 := a, strict := s } rid =
      convert_file cp fs p c rid ∧
    scan_files { c with assume_cp932 := a, strict := s } tree =
      scan_files c tree := by
  cases c
  exact ⟨rfl, rfl⟩

/-- Does a manifest entry escape either root after joining and resolving?
(The negation of what `_validate_path_within` accepts for it.) -/
def entryEscapes (backup_root target_root : PathC)
    (info : ConvertedFileInfo) : Bool :=
  !(resolvePath backup_root).isPrefixOf
      (resolvePath (backup_root ++ splitSlash info.relative_path)) ||
  !(resolvePath target_root).isPrefixOf
      (resolvePath (target_root ++ splitSlash info.relative_path))

/-- What a successful `_validate_path_within` guarantees. -/
theorem validate_ok_prefix (path root : PathC) (d : String) (x : PathC)
    (h : validate_path_within path root d = .ok x) :
    x = resolvePath path ∧ (resolvePath root).isPrefixOf x = true := by
  simp only [validate_path_within] at h
  split_ifs at h with hp
  cases h
  exact ⟨rfl, hp⟩

/-- Model of `_validate_path_within` rejects exactly the escaping paths. -/
theorem validate_fail_of_escape (path root : PathC) (d : String)
    (h : (resolvePath root).isPrefixOf (resolvePath path) = false) :
    validate_path_within path root d =
      .error (.traversal d path (resolvePath root)) := by
  simp only [validate_path_within]
  rw [if_neg (by rw [h]; exact Bool.false_ne_true)]

/-- If the restore loop completes successfully, no entry escaped. -/
theorem restoreLoop_ok_no_escape (backup_root target_root : PathC) :
    ∀ (entries : List ConvertedFileInfo) (fs fs2 : FS) (lst : List PathC),
      restoreLoop backup_root target_root fs entries = (fs2, .ok lst) →
      ∀ info ∈ entries, entryEscapes backup_root target_root info = false := by
  intro entries
  induction entries with
  | nil => intro fs fs2 lst _ info hmem; cases hmem
  | cons e rest ih =>
    intro fs fs2 lst hok info hmem
    rw [restoreLoop] at hok
    cases hv1 : validate_path_within
        (backup_root ++ splitSlash e.relative_path) backup_root
        "backup path" with
    | error err => rw [hv1] at hok; simp at hok
    | ok bp =>
      rw [hv1] at hok
      dsimp only at hok
      cases hv2 : validate_path_within
          (target_root ++ splitSlash e.relative_path) target_root
          "target path" with
      | error err => rw [hv2] at hok; simp at hok
      | ok tp =>
        rw [hv2] at hok
        dsimp only at hok
        have he : entryEscapes backup_root target_root e = false := by
          obtain ⟨hx1, hp1⟩ := validate_ok_prefix _ _ _ _ hv1
          obtain ⟨hx2, hp2⟩ := validate_ok_prefix _ _ _ _ hv2
          rw [hx1] at hp1
          rw [hx2] at hp2
          unfold entryEscapes
          rw [hp1, hp2]
          rfl
        rcases List.mem_cons.mp hmem with rfl | hmem2
        · exact he
        · cases hl : fs.lookup bp with
          | absent => rw [hl] at hok; simp at hok
          | denied => rw [hl] at hok; simp at hok
          | file data =>
            rw [hl] at hok
            dsimp only at hok
            cases hwrt : fs.write tp data with
            | error err => rw [hwrt] at hok; simp at hok
            | ok fs1 =>
              rw [hwrt] at hok
              dsimp only at hok
              cases hrec : restoreLoop backup_root target_root fs1 rest with
              | mk fs3 res =>
                rw [hrec] at hok
                cases res with
                | ok lst2 => exact ih fs1 fs3 lst2 hrec info hmem2
                | error err => simp at hok

/-- The restore loop only ever writes paths inside the resolved target
root. -/
theorem restoreLoop_writes_within (backup_root target_root : PathC) :
    ∀ (entries : List ConvertedFileInfo) (fs : FS) (q : PathC),
      (restoreLoop backup_root target_root fs entries).1.lookup q ≠
        fs.lookup q →
      (resolvePath target_root).isPrefixOf q = true := by
  intro entries
  induction entries with
  | nil => intro fs q hne; exact absurd rfl hne
  | cons e rest ih =>
    intro fs q hne
    rw [restoreLoop] at hne
    cases hv1 : validate_path_within
        (backup_root ++ splitSlash e.relative_path) backup_root
        "backup path" with
    | error err => rw [hv1] at hne; exact absurd rfl hne
    | ok bp =>
      rw [hv1] at hne
      dsimp only at hne
      cases hv2 : validate_path_within
          (target_root ++ splitSlash e.relative_path) target_root
          "target path" with
      | error err => rw [hv2] at hne; exact absurd rfl hne
      | ok tp =>
        rw [hv2] at hne
        dsimp only at hne
        obtain ⟨hx2, hp2⟩ := validate_ok_prefix _ _ _ _ hv2
        cases hl : fs.lookup bp with
        | absent => rw [hl] at hne; exact absurd rfl hne
        | denied => rw [hl] at hne; exact absurd rfl hne
        | file data =>
          rw [hl] at hne
          dsimp only at hne
          cases hwrt : fs.write tp data with
          | error err => rw [hwrt] at hne; exact absurd rfl hne
          | ok fs1 =>
            rw [hwrt] at hne
            dsimp only at hne
            by_cases hq : q = tp
            · subst hq
              exact hp2
            · have hfs1 : fs1.lookup q = fs.lookup q := by
                rw [FS.write_lookup fs tp data fs1 hwrt q, if_neg hq]
              cases hrec : restoreLoop backup_root target_root fs1 rest with
              | mk fs3 res =>
                rw [hrec] at hne
                have hne1 : (restoreLoop backup_root target_root fs1 rest).1.lookup q ≠
                    fs1.lookup q := by
                  rw [hrec]
                  cases res <;> dsimp only at hne ⊢ <;> rw [hfs1] <;> exact hne
                exact ih fs1 q hne1

/-- C2 (amended): loading a manifest with any escaping entry makes restore
fail; the offending entry is rejected before its own copy (an escaping
first entry leaves the filesystem untouched and raises a traversal error);
and no location outside the resolved target root is ever written.  Entries
preceding the first offending one may however already have been copied
when the failure is raised. -/
theorem c2_restore_traversal (store : ManifestStore) (fs : FS)
    (backup_dir : PathC) (run_id : String) (m : RunManifest)
    (hload : load_manifest store backup_dir run_id = some (.ok m)) :
    ((∃ info ∈ m.converted_files,
        entryEscapes (backup_dir ++ [run_id]) (splitSlash m.target_path)
          info = true) →
      ∃ e, (restore_backup store fs backup_dir run_id).2 = .error e) ∧
    (∀ q, (restore_backup store fs backup_dir run_id).1.lookup q ≠
        fs.lookup q →
      (resolvePath (splitSlash m.target_path)).isPrefixOf q = true) ∧
    (∀ info rest, m.converted_files = info :: rest →
      entryEscapes (backup_dir ++ [run_id]) (splitSlash m.target_path)
        info = true →
      ∃ d pth r, restore_backup store fs backup_dir run_id =
        (fs, .error (.traversal d pth r))) := by
  have hrb : restore_backup store fs backup_dir run_id =
      restoreLoop (backup_dir ++ [run_id]) (splitSlash m.target_path) fs
        m.converted_files := by
    unfold restore_backup
    rw [hload]
  refine ⟨?_, ?_, ?_⟩
  · intro ⟨info, hmem, hesc⟩
    rw [hrb]
    cases hout : restoreLoop (backup_dir ++ [run_id])
        (splitSlash m.target_path) fs m.converted_files with
    | mk fs2 res =>
      cases res with
      | ok lst =>
        have := restoreLoop_ok_no_escape _ _ _ _ _ _ hout info hmem
        rw [this] at hesc
        cases hesc
      | error e => exact ⟨e, rfl⟩
  · intro q
    rw [hrb]
    exact restoreLoop_writes_within _ _ m.converted_files fs q
  · intro info rest hcons hesc
    rw [hrb, hcons, restoreLoop]
    by_cases hb : (resolvePath (backup_dir ++ [run_id])).isPrefixOf
        (resolvePath ((backup_dir ++ [run_id]) ++
          splitSlash info.relative_path)) = true
    · have ht : (resolvePath (splitSlash m.target_path)).isPrefixOf
          (resolvePath (splitSlash m.target_path ++
            splitSlash info.relative_path)) = false := by
        unfold entryEscapes at hesc
        rw [hb] at hesc
        simp only [Bool.not_true, Bool.false_or, Bool.not_eq_true',
          Bool.not_eq_false] at hesc
        exact hesc
      have hvo : validate_path_within
          ((backup_dir ++ [run_id]) ++ splitSlash info.relative_path)
          (backup_dir ++ [run_id]) "backup path" =
          .ok (resolvePath ((backup_dir ++ [run_id]) ++
            splitSlash info.relative_path)) := by
        simp only [validate_path_within]
        rw [if_pos hb]
      rw [hvo, validate_fail_of_escape _ _ _ ht]
      exact ⟨"target path", _, _, rfl⟩
    · have hbf : (resolvePath (backup_dir ++ [run_id])).isPrefixOf
          (resolvePath ((backup_dir ++ [run_id]) ++
            splitSlash info.relative_path)) = false := by
        revert hb
        cases (resolvePath (backup_dir ++ [run_id])).isPrefixOf
          (resolvePath ((backup_dir ++ [run_id]) ++
            splitSlash info.relative_path)) <;> simp
      rw [validate_fail_of_escape _ _ _ hbf]
      exact ⟨"backup path", _, _, rfl⟩

/-- The manifest of the C2 counterexample: a valid first entry followed by
a traversal-crafted second entry. -/
def c2Manifest : RunManifest :=
  { run_id := "r", timestamp := "2026-01-01T00:00:00", target_path := "/t",
    converted_files := [⟨"ok.cs", "cp932", "ok.cs"⟩,
                        ⟨"../../x", "cp932", "../../x"⟩],
    config := Json.obj [] }

/-- The manifest store of the C2 counterexample. -/
def c2Store : ManifestStore := save_manifest c2Manifest ["b"] []

/-- The filesystem of the C2 counterexample: the first entry's backup and
its live target. -/
def c2Fs : FS :=
  { files := [(["b", "r", "ok.cs"], .file [1]), (["t", "ok.cs"], .file [2])],
    dirs := [] }

/-- C2 counterexample: restore fails with a traversal error on the second
manifest entry, yet the first entry's copy has already been performed —
the rejection does not happen before every filesystem copy is attempted,
refuting the claim as stated. -/
theorem c2_counterexample :
    (restore_backup c2Store c2Fs ["b"] "r").2 =
      .error (.traversal "backup path" ["b", "r", "..", "..", "x"]
        ["b", "r"]) ∧
    c2Fs.lookup ["t", "ok.cs"] = .file [2] ∧
    (restore_backup c2Store c2Fs ["b"] "r").1.lookup ["t", "ok.cs"] =
      .file [1] :=
  ⟨rfl, rfl, rfl⟩

/-- Witness for the amended C2 at the concrete counterexample data. -/
theorem c2_witness :
    (∃ e, (restore_backup c2Store c2Fs ["b"] "r").2 = .error e) ∧
    (restore_backup c2Store c2Fs ["b"] "r").1.lookup ["x"] =
      c2Fs.lookup ["x"] := by
  have h := c2_restore_traversal c2Store c2Fs ["b"] "r" c2Manifest rfl
  refine ⟨h.1 ⟨⟨"../../x", "cp932", "../../x"⟩, by decide, by decide⟩, ?_⟩
  by_contra hne
  exact absurd (h.2.1 ["x"] hne) (by decide)

end SjisTool
